import Mathlib

/-!
Verification development for the microfview frame-tick scheduler and plugin
concurrency model (`microfview/main.py`, `microfview/plugin.py`,
`microfview/store.py`).

The Python code is shallowly embedded: the mutable per-tick `FrameState`
dictionary becomes an association list with first-match lookup, the scheduler
main loop (`Microfview.run`) becomes a recursive function over a list of
capture events producing a trace of observable events (plugin starts, pushes,
stops, per-tick seed states, end-of-tick key observations), and the worker
thread loops become recursive functions over the sequence of items appearing
in their single-slot argument queues.
-/

/-- Atomic Python values as they occur in the microfview state dictionaries:
`None`, booleans, integers, strings, (opaque) numpy frame buffers identified
by an id plus a color flag, and the detection/tracking objects of
`microfview/store.py` (flat records; coordinates are kept as integers since
their numeric content is irrelevant to the merge semantics). -/
inductive PyAtom where
  | pynone : PyAtom
  | pybool : Bool → PyAtom
  | pyint : Int → PyAtom
  | pystr : String → PyAtom
  | frameBuf : Nat → Bool → PyAtom
  | detection : Nat → Int → Int → PyAtom
deriving DecidableEq, Repr

/-- A state-dictionary value: an atom, or a list of atoms (the accumulating
keys hold lists of detection objects). -/
inductive PyVal where
  | atom : PyAtom → PyVal
  | list : List PyAtom → PyVal
deriving DecidableEq, Repr

/-- Python `None` as a state value. -/
def PyVal.pynone : PyVal := PyVal.atom PyAtom.pynone

/-- An opaque frame buffer; `color` records whether it is a 3-channel image
(`frame.ndim == 3 and frame.shape[-1] == 3` in `Microfview.run`). -/
structure Frame where
  id : Nat
  color : Bool
deriving DecidableEq, Repr

/-- Embeds `cv2.cvtColor(frame, cv2.COLOR_BGR2GRAY)`: the buffer contents are
opaque here, only the loss of the color property is tracked. -/
def Frame.gray (f : Frame) : Frame :=
  { id := f.id, color := false }

/-- Encodes a frame buffer as the value stored under `FRAME_ORIGINAL`. -/
def Frame.val (f : Frame) : PyVal :=
  PyVal.atom (PyAtom.frameBuf f.id f.color)

/-- The per-tick state dictionary (`state = collections.defaultdict(list)` in
`Microfview.run`).  Assignments prepend, lookup takes the first match, and a
missing key yields the default factory value `list()`, i.e. an empty list. -/
structure FrameState where
  entries : List (String × PyVal)
deriving DecidableEq, Repr

/-- Dictionary lookup `state[k]` on the `defaultdict(list)`: the most recent
binding if present, otherwise a fresh empty list. -/
def FrameState.get (s : FrameState) (k : String) : PyVal :=
  match s.entries.lookup k with
  | some v => v
  | Option.none => PyVal.list []

/-- Dictionary assignment `state[k] = v`. -/
def FrameState.set (s : FrameState) (k : String) (v : PyVal) : FrameState :=
  ⟨(k, v) :: s.entries⟩

/-- The empty dictionary. -/
def FrameState.empty : FrameState := ⟨[]⟩

/-- Observational equality of state dictionaries: every lookup agrees. -/
def FrameState.equiv (s1 s2 : FrameState) : Prop :=
  ∀ k, s1.get k = s2.get k

/-- The accumulating state keys, from `microfview/store.py`
(`SPECIAL_STATE_KEYS`). -/
def SPECIAL_STATE_KEYS : List String :=
  ["UFVIEW_object", "UFVIEW_tracked_object", "UFVIEW_tracked_3d_object",
   "UFVIEW_contour", "UFVIEW_point_array"]

/-- Coerces a stored value to a list the way append-semantics sees it
(values at accumulating keys are lists: the `defaultdict` default is `[]` and
the merge below only ever stores lists there). -/
def PyVal.asList : PyVal → List PyAtom
  | PyVal.list xs => xs
  | PyVal.atom a => [a]

/-- Appends the elements of a delta value to an accumulated list with
duplicate suppression by equality. -/
def appendDedup (xs : List PyAtom) (v : PyVal) : List PyAtom :=
  v.asList.foldl (fun acc a => if a ∈ acc then acc else acc ++ [a]) xs

/-- Modelled from the spec: `state_update` is imported by `microfview/main.py`
from `microfview.store`, but its definition is absent from the `store.py` in
the sources.  Per the spec (§3, §8), the merge applied per returned state
delta overwrites the value for every non-accumulating key, and for the
accumulating keys (`SPECIAL_STATE_KEYS`) appends the new value to the stored
list with duplicate suppression by equality.  The spec leaves the exact rule
for list-valued delta entries open (§9); the model appends each element of
the delta value, deduplicated by equality. -/
def state_update (state : FrameState) (delta : List (String × PyVal)) : FrameState :=
  delta.foldl
    (fun st kv =>
      if kv.1 ∈ SPECIAL_STATE_KEYS then
        st.set kv.1 (PyVal.list (appendDedup (st.get kv.1).asList kv.2))
      else
        st.set kv.1 kv.2)
    state

/-- The fresh state built at each tick start (`Microfview.run`, the three
seed assignments `state[FRAME_ORIGINAL] = frame`,
`state[FRAME_METADATA] = ...`, `state[KEY] = None`). -/
def initState (frame : Frame) (meta : PyVal) : FrameState :=
  ((FrameState.empty.set "FRAME_ORIGINAL" frame.val).set "FRAME_METADATA" meta).set
    "KEY" PyVal.pynone

/-- A state delta as returned by a plugin (a Python dict literal). -/
abbrev Delta := List (String × PyVal)

/-- Python `dict.update` (used by `PluginChain._call_plugins`,
`state.update(ret_state)`): plain overwrite of every key of the delta,
with no accumulating-key handling. -/
def dictUpdate (st : FrameState) (d : Delta) : FrameState :=
  d.foldl (fun s kv => s.set kv.1 kv.2) st

/-- The exceptions relevant to the plugin protocol: the completion signal
`PluginFinished` (`microfview/plugin.py`) and any other exception. -/
inductive PyExn where
  | pluginFinished : PyExn
  | generic : PyExn
deriving DecidableEq, Repr

/-- The dynamic result of one plugin invocation, as the scheduler loop
(`Microfview.run`) and `PluginChain._call_plugins` discriminate it:
`None`, the busy marker `False`, a `(frame, dict)` 2-tuple, a `dict`, a bare
`np.ndarray` frame, a value of any other type (which matches none of the
`isinstance` checks), or an exception being raised by the call. -/
inductive PushRet where
  | retNone : PushRet
  | busy : PushRet
  | imgState : Frame → Delta → PushRet
  | stateOnly : Delta → PushRet
  | img : Frame → PushRet
  | other : PushRet
  | finishes : PushRet
  | raises : PushRet
deriving DecidableEq, Repr

/-- The argument tuple passed to `push_frame`/`process_frame`
(`(frame, frame_number, frame_count, frame_time, current_time, state)`);
the two wall-clock timestamps carry no information relevant to the verified
properties and are omitted. -/
structure WArgs where
  frame : Frame
  num : Nat
  cnt : Nat
  state : FrameState
deriving DecidableEq, Repr

/-- A value sitting in a worker result queue: whatever `process_frame`
returned (`None`, a `(frame, dict)` tuple, a `dict`, an `np.ndarray`, or a
value of some other type). -/
inductive WRet where
  | noneV : WRet
  | tup : Frame → Delta → WRet
  | dict : Delta → WRet
  | arr : Frame → WRet
  | otherV : WRet
deriving DecidableEq, Repr

/-- The two single-slot queues of a `NonBlockingPlugin`
(`Queue.Queue(maxsize=1)` for arguments and results). -/
structure WQ where
  argSlot : Option WArgs
  resSlot : Option WRet
deriving DecidableEq, Repr

/-- The result-interpretation chain shared by `NonBlockingPlugin.push_frame`
(lines 358-365): starting from the pushed frame and `ret_state = {}`, a tuple
replaces both, a dict replaces the state, an ndarray replaces the frame. -/
def interpretRet (frame : Frame) : WRet → Frame × Delta
  | WRet.tup f d => (f, d)
  | WRet.dict d => (frame, d)
  | WRet.arr f => (f, [])
  | WRet.noneV => (frame, [])
  | WRet.otherV => (frame, [])

/-- What `NonBlockingPlugin.push_frame` returns to the scheduler: the busy
marker `False`, or the `(frame, ret_state)` pair. -/
inductive WOut where
  | busy : WOut
  | result : Frame → Delta → WOut
deriving DecidableEq, Repr

/-- Embeds `NonBlockingPlugin.push_frame`: a non-blocking `put_nowait` of the
new arguments (dropped silently when the single argument slot is full),
then a non-blocking `get_nowait` of the result slot — empty means the busy
marker `False` is returned, otherwise the dequeued value is interpreted via
the `isinstance` chain and `(frame, ret_state)` is returned.  The framestore
fan-out (which affects neither the returned value nor the queues) is not
modelled. -/
def NonBlockingPlugin.push_frame (q : WQ) (a : WArgs) : WOut × WQ :=
  let q1 : WQ :=
    match q.argSlot with
    | some x => { argSlot := some x, resSlot := q.resSlot }
    | Option.none => { argSlot := some a, resSlot := q.resSlot }
  match q1.resSlot with
  | Option.none => (WOut.busy, q1)
  | some r =>
    let fr := interpretRet a.frame r
    (WOut.result fr.1 fr.2, { argSlot := q1.argSlot, resSlot := Option.none })

/-- How a `NonBlockingPlugin` worker loop terminates: by the `None` sentinel
enqueued by `stop()`, by exhausting the modelled argument sequence, or by an
exception escaping `process_frame`. -/
inductive WorkerExit where
  | sentinel : WorkerExit
  | starved : WorkerExit
  | exn : PyExn → WorkerExit
deriving DecidableEq, Repr

/-- Embeds `NonBlockingPlugin.run` (lines 375-384): a blocking dequeue from
the argument queue (modelled as consuming a list of queue items, `none`
being the termination sentinel), then `process_frame` runs with NO
surrounding try/except — its return value is enqueued on success, and any
exception it raises escapes the loop and kills the worker thread. -/
def NonBlockingPlugin.workerRun (pf : WArgs → Except PyExn WRet) :
    List (Option WArgs) → List WRet × WorkerExit
  | [] => ([], WorkerExit.starved)
  | Option.none :: _ => ([], WorkerExit.sentinel)
  | some a :: rest =>
    match pf a with
    | Except.ok v =>
      let r := NonBlockingPlugin.workerRun pf rest
      (v :: r.1, r.2)
    | Except.error e => ([], WorkerExit.exn e)

/-- A child of a `PluginChain`: an identity and the behavior of its
`process_frame` on a given frame number. -/
structure ChainChild where
  id : Nat
  react : Nat → PushRet

/-- Embeds `PluginChain._call_plugins` (lines 238-257): children run in
list order, each return value interpreted by the `isinstance` chain
(`False` only logs a warning, a tuple replaces frame and delta, a dict the
delta, an ndarray the frame), the delta merged into the state by plain
`state.update`.  There is no `try`/`except` around the child call: an
exception — in particular `PluginFinished` — propagates immediately.  The
function returns the ids of the children whose `process_frame` was invoked
together with either the final `(frame, state)` pair or the escaped
exception; the child list itself is never modified. -/
def PluginChain.call_plugins (num : Nat) :
    List ChainChild → Frame → FrameState → List Nat × Except PyExn (Frame × FrameState)
  | [], frame, st => ([], Except.ok (frame, st))
  | c :: rest, frame, st =>
    match c.react num with
    | PushRet.finishes => ([c.id], Except.error PyExn.pluginFinished)
    | PushRet.raises => ([c.id], Except.error PyExn.generic)
    | PushRet.retNone =>
      let r := PluginChain.call_plugins num rest frame st
      (c.id :: r.1, r.2)
    | PushRet.busy =>
      let r := PluginChain.call_plugins num rest frame st
      (c.id :: r.1, r.2)
    | PushRet.imgState f d =>
      let r := PluginChain.call_plugins num rest f (dictUpdate st d)
      (c.id :: r.1, r.2)
    | PushRet.stateOnly d =>
      let r := PluginChain.call_plugins num rest frame (dictUpdate st d)
      (c.id :: r.1, r.2)
    | PushRet.img f =>
      let r := PluginChain.call_plugins num rest f st
      (c.id :: r.1, r.2)
    | PushRet.other =>
      let r := PluginChain.call_plugins num rest frame st
      (c.id :: r.1, r.2)

/-- An item in a `PluginChain` result queue: the priming `False` put at
construction time (line 180), a `(frame, state)` value produced by the
worker, or an exception object placed there by the worker loop. -/
inductive ChainQItem where
  | primer : ChainQItem
  | value : Frame → FrameState → ChainQItem
  | exn : PyExn → ChainQItem
deriving Repr

/-- Embeds the worker loop `PluginChain.run` (lines 222-236): a blocking
dequeue (`none` is the sentinel put by `stop()`), then `_call_plugins` under
`try`/`except Exception`: on success the `(frame, state)` result is put into
the result queue and the loop continues; on any exception — including the
completion signal `PluginFinished` — the exception is logged, put into the
result queue, and the loop breaks.  Returns the sequence of items put into
the result queue. -/
def PluginChain.workerRun (children : List ChainChild) :
    List (Option WArgs) → List ChainQItem
  | [] => []
  | Option.none :: _ => []
  | some a :: rest =>
    match (PluginChain.call_plugins a.num children a.frame a.state).2 with
    | Except.ok fs => ChainQItem.value fs.1 fs.2 :: PluginChain.workerRun children rest
    | Except.error e => [ChainQItem.exn e]

/-- What `PluginChain.push_frame` returns to the scheduler, as selected by
the `return_frame`/`return_state` flags. -/
inductive ChainOut where
  | outNone : ChainOut
  | outFrame : Frame → ChainOut
  | outState : FrameState → ChainOut
  | outBoth : Frame → FrameState → ChainOut

/-- The return-value selection at the end of `PluginChain.push_frame`
(lines 281-288). -/
def ChainOut.select (returnFrame returnState : Bool) (f : Frame) (st : FrameState) :
    ChainOut :=
  if returnFrame && returnState then ChainOut.outBoth f st
  else if returnFrame then ChainOut.outFrame f
  else if returnState then ChainOut.outState st
  else ChainOut.outNone

/-- Embeds the threaded branch of `PluginChain.push_frame` (lines 259-266
plus the interpretation tail): a blocking dequeue of the result queue
(`ret` is the dequeued item); if the item is an `Exception` instance it is
re-raised on the calling (scheduler) thread before the new arguments are
enqueued; otherwise the arguments are enqueued and the dequeued item is
interpreted — the priming `False` yields an empty `ret_state`, a
`(frame, state)` tuple replaces frame and state.  On success the result is
the selected return value together with the enqueued arguments. -/
def PluginChain.push_frame_threaded (returnFrame returnState : Bool)
    (ret : ChainQItem) (a : WArgs) : Except PyExn (ChainOut × WArgs) :=
  match ret with
  | ChainQItem.exn e => Except.error e
  | ChainQItem.primer =>
    Except.ok (ChainOut.select returnFrame returnState a.frame FrameState.empty, a)
  | ChainQItem.value f st =>
    Except.ok (ChainOut.select returnFrame returnState f st, a)

/-- An attached callback as held in `Microfview._callbacks`: the handle is
the pair of the period `every` and the callable; `id` models object identity
(each attached callable is a distinct object), and `react` gives the dynamic
outcome of calling it on a given source frame number.  `showsWindows` and
`usesColor` are the attributes the scheduler reads once at `run()` start. -/
structure CB where
  id : Nat
  every : Nat
  react : Nat → PushRet
  showsWindows : Bool
  usesColor : Bool

/-- The observable trace events of a scheduler run: `start()` calls,
`push_frame` invocations (with the source frame number of the tick),
`stop()` calls, the per-tick fresh state (recording the seeded `KEY` entry),
and the end-of-tick `cv2.waitKey` observation written into the current
tick's state. -/
inductive Ev where
  | started : Nat → Ev
  | pushed : Nat → Nat → Ev
  | stopped : Nat → Ev
  | tick : Nat → PyVal → Ev
  | endKey : Nat → Nat → Ev
deriving DecidableEq, Repr

/-- One iteration's input from the capture side: a successfully grabbed
frame (with its source frame number, metadata, and the key the UI would
deliver at end of tick), an `EOFError`, an exception of the designated
non-critical class, a `None` frame, or an external `stop()` call observed
between iterations. -/
inductive CapEvent where
  | frame : Frame → Nat → PyVal → Nat → CapEvent
  | eof : CapEvent
  | noncritical : CapEvent
  | nullFrame : CapEvent
  | stopRequest : CapEvent

/-- The scheduler state of `Microfview`: the run flag, the callback list
(insertion-ordered handles), the plugin map (the callbacks that went through
`attach_plugin`, hence receive `start()`/`stop()`), the expected-frame
counter, the tick counter, and the lazily determined source color flag. -/
structure Sched where
  run : Bool
  callbacks : List CB
  plugins : List CB
  frameNumberCurrent : Nat
  frameCount : Nat
  captureIsColor : Option Bool
  finished : Bool

/-- The result of dispatching one tick to the callback list. -/
structure TickRes where
  evs : List Ev
  buf : Frame
  state : FrameState
  fins : List Nat
  raised : Bool

/-- Embeds the per-tick callback dispatch loop of `Microfview.run` (lines
269-315): every handle in list order whose period divides the current source
frame number is invoked; the return value is interpreted (busy `False` and
`None` contribute nothing, a tuple replaces the running buffer and merges
its delta via `state_update`, a dict merges its delta, an ndarray replaces
the buffer); `PluginFinished` is caught and the handle recorded for
post-tick removal; any other exception aborts the dispatch (and the whole
loop) immediately.  The framestore fan-out does not affect the loop state
and is not modelled. -/
def runCallbacks (num : Nat) : List CB → Frame → FrameState → TickRes
  | [], buf, st => ⟨[], buf, st, [], false⟩
  | cb :: rest, buf, st =>
    if num % cb.every == 0 then
      match cb.react num with
      | PushRet.raises => ⟨[Ev.pushed cb.id num], buf, st, [], true⟩
      | PushRet.finishes =>
        let r := runCallbacks num rest buf st
        ⟨Ev.pushed cb.id num :: r.evs, r.buf, r.state, cb.id :: r.fins, r.raised⟩
      | PushRet.retNone =>
        let r := runCallbacks num rest buf st
        ⟨Ev.pushed cb.id num :: r.evs, r.buf, r.state, r.fins, r.raised⟩
      | PushRet.busy =>
        let r := runCallbacks num rest buf st
        ⟨Ev.pushed cb.id num :: r.evs, r.buf, r.state, r.fins, r.raised⟩
      | PushRet.imgState f d =>
        let r := runCallbacks num rest f (state_update st d)
        ⟨Ev.pushed cb.id num :: r.evs, r.buf, r.state, r.fins, r.raised⟩
      | PushRet.stateOnly d =>
        let r := runCallbacks num rest buf (state_update st d)
        ⟨Ev.pushed cb.id num :: r.evs, r.buf, r.state, r.fins, r.raised⟩
      | PushRet.img f =>
        let r := runCallbacks num rest f st
        ⟨Ev.pushed cb.id num :: r.evs, r.buf, r.state, r.fins, r.raised⟩
      | PushRet.other =>
        let r := runCallbacks num rest buf st
        ⟨Ev.pushed cb.id num :: r.evs, r.buf, r.state, r.fins, r.raised⟩
    else
      runCallbacks num rest buf st

/-- Embeds the post-tick removal loop (`Microfview.run` lines 320-323 with
`Microfview.detach_callback`, lines 151-163): each finished handle is
removed from the callback list; if the handle belongs to an attached plugin,
the plugin is popped from the plugin map and its `stop()` is called — a
handle that is not a plugin is only detached. -/
def detachFinished : List Nat → List CB → List CB → List Ev × List CB × List CB
  | [], cbs, plugs => ([], cbs, plugs)
  | i :: rest, cbs, plugs =>
    let cbs1 := cbs.eraseP (fun cb => cb.id == i)
    if plugs.any (fun p => p.id == i) then
      let r := detachFinished rest cbs1 (plugs.eraseP (fun p => p.id == i))
      (Ev.stopped i :: r.1, r.2)
    else
      detachFinished rest cbs1 plugs

/-- The result of the scheduler main loop: the emitted trace, the final
state, and whether an exception escaped (aborting the loop). -/
structure LoopRes where
  evs : List Ev
  sched : Sched
  raised : Bool

/-- The buffer handed to the callbacks: converted to grayscale once per tick
when the capture is color and every plugin is grayscale-only
(`Microfview.run` lines 245-248). -/
def pickBuf (ag cic : Bool) (f : Frame) : Frame :=
  if cic && ag then f.gray else f

/-- The result of processing one grabbed frame: the tick's trace, the
scheduler state afterwards, whether an exception escaped the dispatch, and
whether the loop continues (false after the lock-check break or an escaped
exception). -/
structure StepRes where
  evs : List Ev
  sched : Sched
  raised : Bool
  cont : Bool

/-- Embeds the body of one `while` iteration of `Microfview.run` for a
successfully grabbed frame (lines 241-341): lazily fix `capture_is_color`
from the first frame, pick the buffer, build the fresh seeded state, update
the counters, dispatch to the callback list, and then — unless an exception
escaped the dispatch — detach the finished handles, self-stop when the
callback list became empty, and, when still running past the lock check,
record the masked `0xFF & cv2.waitKey()` observation into the current
tick's state (only when some plugin shows windows).  An escaped exception
aborts immediately: the finished handles collected earlier in the tick are
never detached and the key wait never runs. -/
def tickStep (ag cw : Bool) (s : Sched) (f : Frame) (num : Nat) (meta : PyVal)
    (key : Nat) : StepRes :=
  let cic := s.captureIsColor.getD f.color
  let st0 := initState f meta
  let s1 : Sched :=
    { s with captureIsColor := some cic, frameNumberCurrent := num,
             frameCount := s.frameCount + 1 }
  let tr := runCallbacks num s1.callbacks (pickBuf ag cic f) st0
  if tr.raised then
    ⟨Ev.tick num (st0.get "KEY") :: tr.evs, s1, true, false⟩
  else
    let d := detachFinished tr.fins s1.callbacks s1.plugins
    let s2 : Sched := { s1 with callbacks := d.2.1, plugins := d.2.2 }
    let s3 : Sched :=
      if s2.callbacks.isEmpty then { s2 with run := false } else s2
    if s3.run then
      ⟨Ev.tick num (st0.get "KEY")
         :: (tr.evs ++ d.1 ++ (if cw then [Ev.endKey num (key % 256)] else [])),
       s3, false, true⟩
    else
      ⟨Ev.tick num (st0.get "KEY") :: (tr.evs ++ d.1), s3, false, false⟩

/-- Embeds the `while self._run` loop of `Microfview.run` (lines 223-341):
per iteration, grab the next capture event — `EOFError` stops the scheduler
and re-checks the loop condition, non-critical errors and `None` frames
skip the iteration, an external `stop()` between iterations clears the run
flag — and process grabbed frames with `tickStep`, stopping when the step
reports a break or an escaped exception. -/
def loopTicks (ag cw : Bool) : Sched → List CapEvent → LoopRes
  | s, [] => ⟨[], s, false⟩
  | s, e :: rest =>
    if s.run then
      match e with
      | CapEvent.stopRequest => loopTicks ag cw { s with run := false } rest
      | CapEvent.eof => loopTicks ag cw { s with run := false } rest
      | CapEvent.noncritical => loopTicks ag cw s rest
      | CapEvent.nullFrame => loopTicks ag cw s rest
      | CapEvent.frame f num meta key =>
        let t := tickStep ag cw s f num meta key
        if t.cont then
          let r := loopTicks ag cw t.sched rest
          ⟨t.evs ++ r.evs, r.sched, r.raised⟩
        else
          ⟨t.evs, t.sched, t.raised⟩
    else
      ⟨[], s, false⟩

/-- Embeds `Microfview.run` (lines 190-351): `start()` is called on every
attached plugin, the `call_cvwaitkey` and all-grayscale flags are computed
once from the plugin map, the main loop runs, and — in the `finally` block,
hence on every exit path including an escaped exception — `stop()` is
called on every plugin still in the plugin map.  The `finished` flag is set
only on the non-raising path (line 351 is outside the `finally`). -/
def Microfview.run (s0 : Sched) (events : List CapEvent) : LoopRes :=
  let startEvs := s0.plugins.map (fun p => Ev.started p.id)
  let ag := !(s0.plugins.any (fun p => p.usesColor))
  let cw := s0.plugins.any (fun p => p.showsWindows)
  let r := loopTicks ag cw { s0 with run := true } events
  let stopEvs := r.sched.plugins.map (fun p => Ev.stopped p.id)
  ⟨startEvs ++ r.evs ++ stopEvs,
   if r.raised then r.sched else { r.sched with finished := true },
   r.raised⟩

/-- Number of callbacks in a list with a given identity. -/
def pcount (l : List CB) (i : Nat) : Nat :=
  l.countP (fun p => p.id == i)

/-- Number of dispatched ticks recorded in a trace. -/
def countTicks (evs : List Ev) : Nat :=
  evs.countP (fun e => match e with | Ev.tick _ _ => true | _ => false)

/-- A capture delivering `k` consecutive frames numbered from `start`. -/
def mkFrames : Nat → Nat → List CapEvent
  | _, 0 => []
  | start, Nat.succ k =>
    CapEvent.frame ⟨start, false⟩ start PyVal.pynone 0 :: mkFrames (start + 1) k

/-- A plain callback with period 1 that never contributes and never
finishes. -/
def cbImmortal : CB :=
  { id := 0, every := 1, react := fun _ => PushRet.retNone,
    showsWindows := false, usesColor := false }

/-- A plain callback with period 1 that signals completion on its first
invocation. -/
def cbFinishing : CB :=
  { id := 0, every := 1, react := fun _ => PushRet.finishes,
    showsWindows := false, usesColor := false }

/-- A plugin (attached via `attach_plugin`) with period 1 that never
contributes. -/
def pluginQuiet : CB :=
  { id := 0, every := 1, react := fun _ => PushRet.retNone,
    showsWindows := false, usesColor := false }

/-- A window-showing plugin with period 1 (so `call_cvwaitkey` is true). -/
def pluginDisplay : CB :=
  { id := 0, every := 1, react := fun _ => PushRet.retNone,
    showsWindows := true, usesColor := false }

/-- A scheduler before `run()` with the given callback and plugin lists. -/
def mkSched (cbs plugs : List CB) : Sched :=
  { run := false, callbacks := cbs, plugins := plugs, frameNumberCurrent := 0,
    frameCount := 0, captureIsColor := Option.none, finished := false }

/-- A callback with period 2 that never contributes. -/
def cbEvery2 : CB :=
  { id := 1, every := 2, react := fun _ => PushRet.retNone,
    showsWindows := false, usesColor := false }

/-- A chain child that signals completion on every invocation. -/
def childFinisher : ChainChild := ⟨0, fun _ => PushRet.finishes⟩

/-- A chain child that contributes a state delta on every invocation. -/
def childContributor : ChainChild :=
  ⟨1, fun _ => PushRet.stateOnly [("x", PyVal.pynone)]⟩

/-- A chain child that returns `None` on every invocation. -/
def childQuiet : ChainChild := ⟨5, fun _ => PushRet.retNone⟩

/-- A `process_frame` behavior that raises a generic exception on frame
number 1 and returns `None` otherwise. -/
def pfFailsOnFirst : WArgs → Except PyExn WRet :=
  fun a => if a.num = 1 then Except.error PyExn.generic else Except.ok WRet.noneV

/-- A concrete argument tuple for frame number `n`. -/
def wargsAt (n : Nat) : WArgs := ⟨⟨n, false⟩, n, n, FrameState.empty⟩

/-- Lookup after assignment: the assigned key reads the new value, any other
key is unaffected. -/
theorem FrameState.get_set (s : FrameState) (k k2 : String) (v : PyVal) :
    (s.set k v).get k2 = if k2 = k then v else s.get k2 := by
  by_cases h : k2 = k
  · subst h
    simp [FrameState.get, FrameState.set, List.lookup]
  · have hb : (k2 == k) = false := by
      simpa using h
    simp [FrameState.get, FrameState.set, List.lookup, hb, h]

/-- A lookup on the empty defaultdict yields the default empty list. -/
theorem FrameState.get_empty (k : String) : FrameState.empty.get k = PyVal.list [] :=
  rfl

/-- The appended value is always a member of the deduplicated append. -/
theorem mem_appendDedup_atom_self (xs : List PyAtom) (a : PyAtom) :
    a ∈ appendDedup xs (PyVal.atom a) := by
  by_cases h : a ∈ xs <;> simp [appendDedup, PyVal.asList, h]

/-- The deduplicated append retains all existing members. -/
theorem mem_appendDedup_atom_mono (xs : List PyAtom) (a b : PyAtom) (h : a ∈ xs) :
    a ∈ appendDedup xs (PyVal.atom b) := by
  by_cases hb : b ∈ xs <;> simp [appendDedup, PyVal.asList, hb, h]

/-- C3: the scheduler's per-tick state merge (`state_update`) overwrites the
value for every non-accumulating key and appends with duplicate suppression
for the accumulating keys: applying the same delta twice to a state yields
the same result as applying it once for an overwrite key, and applying two
distinct detections to an accumulating key yields a state containing both,
in either application order. -/
theorem state_update_overwrite_idem_accum_additive
    (st : FrameState) (k ks : String) (v : PyVal) (a1 a2 : PyAtom)
    (hk : k ∉ SPECIAL_STATE_KEYS) (hks : ks ∈ SPECIAL_STATE_KEYS) (hne : a1 ≠ a2) :
    ((state_update st [(k, v)]).get k = v)
    ∧ FrameState.equiv (state_update (state_update st [(k, v)]) [(k, v)])
        (state_update st [(k, v)])
    ∧ (a1 ∈ ((state_update (state_update st [(ks, PyVal.atom a1)])
                [(ks, PyVal.atom a2)]).get ks).asList
       ∧ a2 ∈ ((state_update (state_update st [(ks, PyVal.atom a1)])
                [(ks, PyVal.atom a2)]).get ks).asList)
    ∧ (a1 ∈ ((state_update (state_update st [(ks, PyVal.atom a2)])
                [(ks, PyVal.atom a1)]).get ks).asList
       ∧ a2 ∈ ((state_update (state_update st [(ks, PyVal.atom a2)])
                [(ks, PyVal.atom a1)]).get ks).asList) := by
  have h1 : ∀ (s : FrameState) (w : PyVal), state_update s [(k, w)] = s.set k w := by
    intro s w
    simp [state_update, hk]
  have h2 : ∀ (s : FrameState) (w : PyVal), state_update s [(ks, w)]
      = s.set ks (PyVal.list (appendDedup (s.get ks).asList w)) := by
    intro s w
    simp [state_update, hks]
  refine ⟨?_, ?_, ⟨?_, ?_⟩, ⟨?_, ?_⟩⟩
  · rw [h1, FrameState.get_set]
    simp
  · intro k2
    simp only [h1]
    by_cases h : k2 = k <;> simp [FrameState.get_set, h]
  · rw [h2, h2]
    simp [FrameState.get_set, PyVal.asList]
    exact mem_appendDedup_atom_mono _ _ _ (mem_appendDedup_atom_self _ _)
  · rw [h2, h2]
    simp [FrameState.get_set, PyVal.asList]
    exact mem_appendDedup_atom_self _ _
  · rw [h2, h2]
    simp [FrameState.get_set, PyVal.asList]
    exact mem_appendDedup_atom_self _ _
  · rw [h2, h2]
    simp [FrameState.get_set, PyVal.asList]
    exact mem_appendDedup_atom_mono _ _ _ (mem_appendDedup_atom_self _ _)

/-- Witness for C3 at concrete inputs: the key `"x"` is not accumulating,
`"UFVIEW_object"` is, and two distinct detections are merged. -/
theorem state_update_overwrite_idem_accum_additive_witness :
    "x" ∉ SPECIAL_STATE_KEYS
    ∧ "UFVIEW_object" ∈ SPECIAL_STATE_KEYS
    ∧ PyAtom.detection 1 0 0 ≠ PyAtom.detection 2 0 0
    ∧ (state_update FrameState.empty [("x", PyVal.pynone)]).get "x" = PyVal.pynone :=
  ⟨by decide, by decide, by decide,
   (state_update_overwrite_idem_accum_additive FrameState.empty "x" "UFVIEW_object"
      PyVal.pynone (PyAtom.detection 1 0 0) (PyAtom.detection 2 0 0)
      (by decide) (by decide) (by decide)).1⟩

/-- C10: the FrameState built each tick is a defaultdict with list factory —
a key not yet written (in particular every accumulating key before the
first detection) yields an empty list rather than an error, and a plugin
may accumulate into an accumulating key without initializing it. -/
theorem defaultdict_missing_key_empty (f : Frame) (meta : PyVal) (k ks : String)
    (a : PyAtom)
    (h1 : k ≠ "FRAME_ORIGINAL") (h2 : k ≠ "FRAME_METADATA") (h3 : k ≠ "KEY")
    (hks : ks ∈ SPECIAL_STATE_KEYS) :
    (initState f meta).get k = PyVal.list []
    ∧ (state_update (initState f meta) [(ks, PyVal.atom a)]).get ks = PyVal.list [a] := by
  constructor
  · simp [initState, FrameState.get_set, h1, h2, h3, FrameState.get_empty]
  · have hbase : (initState f meta).get ks = PyVal.list [] := by
      simp [SPECIAL_STATE_KEYS] at hks
      rcases hks with rfl | rfl | rfl | rfl | rfl <;>
        simp [initState, FrameState.get_set, FrameState.get_empty]
    have hmem : ks ∈ SPECIAL_STATE_KEYS := hks
    simp [state_update, hmem, FrameState.get_set, hbase, appendDedup, PyVal.asList]

/-- Witness for C10 at concrete inputs: an arbitrary unwritten key and the
accumulating key `"UFVIEW_contour"`. -/
theorem defaultdict_missing_key_empty_witness :
    ("foo" : String) ≠ "FRAME_ORIGINAL"
    ∧ ("foo" : String) ≠ "FRAME_METADATA"
    ∧ ("foo" : String) ≠ "KEY"
    ∧ "UFVIEW_contour" ∈ SPECIAL_STATE_KEYS
    ∧ (initState ⟨0, false⟩ PyVal.pynone).get "foo" = PyVal.list [] :=
  ⟨by decide, by decide, by decide, by decide,
   (defaultdict_missing_key_empty ⟨0, false⟩ PyVal.pynone "foo" "UFVIEW_contour"
      (PyAtom.detection 3 1 2) (by decide) (by decide) (by decide) (by decide)).1⟩

/-- C4: `NonBlockingPlugin.push_frame` — the argument enqueue is
non-blocking and the new frame is silently dropped when the single argument
slot is already full; the result dequeue is non-blocking; the call returns
the busy marker `False` iff the result slot is empty, and otherwise the
dequeued result interpreted normally; the result slot is empty afterwards. -/
theorem nonblocking_push_frame_semantics (q : WQ) (a : WArgs) :
    ((NonBlockingPlugin.push_frame q a).1 = WOut.busy ↔ q.resSlot = Option.none)
    ∧ (q.argSlot = Option.none →
        (NonBlockingPlugin.push_frame q a).2.argSlot = some a)
    ∧ (∀ x, q.argSlot = some x →
        (NonBlockingPlugin.push_frame q a).2.argSlot = some x)
    ∧ (∀ r, q.resSlot = some r →
        (NonBlockingPlugin.push_frame q a).1
          = WOut.result (interpretRet a.frame r).1 (interpretRet a.frame r).2)
    ∧ (NonBlockingPlugin.push_frame q a).2.resSlot = Option.none := by
  rcases q with ⟨aslot, rslot⟩
  cases aslot <;> cases rslot <;> simp [NonBlockingPlugin.push_frame]

/-- Witness for C4 at a concrete queue state: full result slot, empty
argument slot. -/
theorem nonblocking_push_frame_semantics_witness :
    (WQ.mk Option.none (some (WRet.dict [("d", PyVal.pynone)]))).resSlot
      = some (WRet.dict [("d", PyVal.pynone)])
    ∧ (NonBlockingPlugin.push_frame
        (WQ.mk Option.none (some (WRet.dict [("d", PyVal.pynone)]))) (wargsAt 1)).1
      = WOut.result
          (interpretRet (wargsAt 1).frame (WRet.dict [("d", PyVal.pynone)])).1
          (interpretRet (wargsAt 1).frame (WRet.dict [("d", PyVal.pynone)])).2 :=
  ⟨rfl,
   (nonblocking_push_frame_semantics
      (WQ.mk Option.none (some (WRet.dict [("d", PyVal.pynone)])))
      (wargsAt 1)).2.2.2.1 (WRet.dict [("d", PyVal.pynone)]) rfl⟩

/-- C5 counterexample: `NonBlockingPlugin.run` has no `try`/`except` around
`process_frame` — with a computation that raises a generic (non-completion)
exception on frame 1, the worker loop terminates with the escaped exception
and does not process the queued frame 2; had the loop reached frame 2
alone, it would have produced a result. -/
theorem worker_uncaught_exception_cex :
    NonBlockingPlugin.workerRun pfFailsOnFirst
      [some (wargsAt 1), some (wargsAt 2), Option.none]
      = ([], WorkerExit.exn PyExn.generic)
    ∧ (NonBlockingPlugin.workerRun pfFailsOnFirst [some (wargsAt 2), Option.none]).1
      = [WRet.noneV] :=
  ⟨rfl, rfl⟩

/-- C5 amended: any exception raised by `process_frame` in the worker thread
— the completion signal or any other — propagates out of the worker loop
uncaught and terminates it, producing no result for the failing or any
subsequent frame; the termination sentinel ends the loop normally. -/
theorem worker_exception_kills_loop (pf : WArgs → Except PyExn WRet) (a : WArgs)
    (rest : List (Option WArgs)) (e : PyExn) (h : pf a = Except.error e) :
    NonBlockingPlugin.workerRun pf (some a :: rest) = ([], WorkerExit.exn e)
    ∧ NonBlockingPlugin.workerRun pf (Option.none :: rest)
      = ([], WorkerExit.sentinel) := by
  constructor
  · simp [NonBlockingPlugin.workerRun, h]
  · simp [NonBlockingPlugin.workerRun]

/-- Witness for the amended C5 at a concrete failing computation. -/
theorem worker_exception_kills_loop_witness :
    pfFailsOnFirst (wargsAt 1) = Except.error PyExn.generic
    ∧ NonBlockingPlugin.workerRun pfFailsOnFirst [some (wargsAt 1)]
      = ([], WorkerExit.exn PyExn.generic) :=
  ⟨rfl, (worker_exception_kills_loop pfFailsOnFirst (wargsAt 1) [] PyExn.generic rfl).1⟩

/-- C6 counterexample: in an inline chain, a child signaling completion
aborts the tick immediately — with a finishing first child and a
contributing second child, `_call_plugins` invokes only the first child
(the second child, id 1, is never executed) and propagates the completion
signal; no child-list bookkeeping happens. -/
theorem chain_inline_finish_aborts_cex :
    PluginChain.call_plugins 1 [childFinisher, childContributor] ⟨1, false⟩
      FrameState.empty = ([0], Except.error PyExn.pluginFinished)
    ∧ (1 : Nat) ∉ (PluginChain.call_plugins 1 [childFinisher, childContributor]
        ⟨1, false⟩ FrameState.empty).1 :=
  ⟨rfl, by decide⟩

/-- C6 amended: children of an inline chain execute in registration order,
but a child that signals completion makes the signal propagate immediately
out of `_call_plugins`: exactly the children before it plus the signaling
child itself are invoked, the children after it in the same tick are not,
the child list is never modified, and the chain completes (from the
scheduler's view) via the propagated `PluginFinished` regardless of how
many children remain. -/
theorem chain_inline_finish_propagates (num : Nat) (pre post : List ChainChild)
    (c : ChainChild) (frame : Frame) (st : FrameState)
    (hpre : ∀ p ∈ pre, p.react num ≠ PushRet.finishes ∧ p.react num ≠ PushRet.raises)
    (hc : c.react num = PushRet.finishes) :
    (PluginChain.call_plugins num (pre ++ c :: post) frame st).1
      = pre.map (fun p => p.id) ++ [c.id]
    ∧ (PluginChain.call_plugins num (pre ++ c :: post) frame st).2
      = Except.error PyExn.pluginFinished := by
  induction pre generalizing frame st with
  | nil => simp [PluginChain.call_plugins, hc]
  | cons p rest ih =>
    have hp := hpre p (by simp)
    have hrest : ∀ q ∈ rest, q.react num ≠ PushRet.finishes ∧ q.react num ≠ PushRet.raises := by
      intro q hq
      exact hpre q (by simp [hq])
    cases hr : p.react num with
    | finishes => exact absurd hr hp.1
    | raises => exact absurd hr hp.2
    | retNone =>
      have h2 := ih frame st hrest
      simp [PluginChain.call_plugins, hr, h2.1, h2.2]
    | busy =>
      have h2 := ih frame st hrest
      simp [PluginChain.call_plugins, hr, h2.1, h2.2]
    | imgState f d =>
      have h2 := ih f (dictUpdate st d) hrest
      simp [PluginChain.call_plugins, hr, h2.1, h2.2]
    | stateOnly d =>
      have h2 := ih frame (dictUpdate st d) hrest
      simp [PluginChain.call_plugins, hr, h2.1, h2.2]
    | img f =>
      have h2 := ih f st hrest
      simp [PluginChain.call_plugins, hr, h2.1, h2.2]
    | other =>
      have h2 := ih frame st hrest
      simp [PluginChain.call_plugins, hr, h2.1, h2.2]

/-- Witness for the amended C6 at a concrete chain: a quiet child, then the
finishing child, then a child that would contribute. -/
theorem chain_inline_finish_propagates_witness :
    (∀ p ∈ [childQuiet], p.react 1 ≠ PushRet.finishes ∧ p.react 1 ≠ PushRet.raises)
    ∧ childFinisher.react 1 = PushRet.finishes
    ∧ (PluginChain.call_plugins 1 ([childQuiet] ++ childFinisher :: [childContributor])
        ⟨1, false⟩ FrameState.empty).1
      = [childQuiet].map (fun p => p.id) ++ [childFinisher.id] :=
  ⟨by decide, rfl,
   (chain_inline_finish_propagates 1 [childQuiet] [childContributor] childFinisher
      ⟨1, false⟩ FrameState.empty (by decide) rfl).1⟩

/-- C7: for a worker-backed chain, an exception raised by a child inside the
worker thread — including the completion signal `PluginFinished` — is caught
by the worker loop, placed into the result queue (as the final item, the
loop breaking), and re-raised on the scheduler thread by the next `push`
call when the dequeued result is an `Exception` instance. -/
theorem chain_worker_exception_requeued (children : List ChainChild) (a : WArgs)
    (rest : List (Option WArgs)) (e : PyExn)
    (h : (PluginChain.call_plugins a.num children a.frame a.state).2 = Except.error e) :
    PluginChain.workerRun children (some a :: rest) = [ChainQItem.exn e]
    ∧ (∀ (rf rs : Bool) (a2 : WArgs),
        PluginChain.push_frame_threaded rf rs (ChainQItem.exn e) a2 = Except.error e) := by
  constructor
  · simp [PluginChain.workerRun, h]
  · intro rf rs a2
    rfl

/-- Witness for C7 at a concrete chain whose only child signals
completion. -/
theorem chain_worker_exception_requeued_witness :
    (PluginChain.call_plugins (wargsAt 1).num [childFinisher] (wargsAt 1).frame
        (wargsAt 1).state).2 = Except.error PyExn.pluginFinished
    ∧ PluginChain.workerRun [childFinisher] [some (wargsAt 1)]
      = [ChainQItem.exn PyExn.pluginFinished] :=
  ⟨rfl,
   (chain_worker_exception_requeued [childFinisher] (wargsAt 1) []
      PyExn.pluginFinished rfl).1⟩

/-- When no attached callback raises a fatal exception on this tick, the
dispatch trace is exactly one push event per callback whose period divides
the source frame number, in list order. -/
theorem runCallbacks_evs_of_no_raise (num : Nat) (cbs : List CB) (buf : Frame)
    (st : FrameState) (h : ∀ cb ∈ cbs, cb.react num ≠ PushRet.raises) :
    (runCallbacks num cbs buf st).evs
      = (cbs.filter (fun cb => num % cb.every == 0)).map
          (fun cb => Ev.pushed cb.id num) := by
  induction cbs generalizing buf st with
  | nil => simp [runCallbacks]
  | cons cb rest ih =>
    have hcb := h cb (by simp)
    have hrest : ∀ q ∈ rest, q.react num ≠ PushRet.raises := by
      intro q hq
      exact h q (by simp [hq])
    by_cases hm : (num % cb.every == 0) = true
    · cases hr : cb.react num with
      | raises => exact absurd hr hcb
      | finishes => simp [runCallbacks, hm, hr, List.filter_cons, ih _ _ hrest]
      | retNone => simp [runCallbacks, hm, hr, List.filter_cons, ih _ _ hrest]
      | busy => simp [runCallbacks, hm, hr, List.filter_cons, ih _ _ hrest]
      | imgState f d => simp [runCallbacks, hm, hr, List.filter_cons, ih _ _ hrest]
      | stateOnly d => simp [runCallbacks, hm, hr, List.filter_cons, ih _ _ hrest]
      | img f => simp [runCallbacks, hm, hr, List.filter_cons, ih _ _ hrest]
      | other => simp [runCallbacks, hm, hr, List.filter_cons, ih _ _ hrest]
    · simp [runCallbacks, hm, List.filter_cons, ih _ _ hrest]

/-- C2: for every tick dispatched by the scheduler and every attached
callback/plugin with period N, its `push` is invoked on that tick if and
only if the source-reported frame sequence number satisfies
`sequence mod N == 0` (stated over the dispatch of one tick to the current
callback list, i.e. for as long as the plugin remains attached; periods are
positive as enforced by `attach_callback`, and no callback aborts the tick
with a fatal exception). -/
theorem push_invoked_iff_period_divides (num : Nat) (cbs : List CB) (buf : Frame)
    (st : FrameState) (i : Nat)
    (hev : ∀ cb ∈ cbs, 1 ≤ cb.every)
    (hnr : ∀ cb ∈ cbs, cb.react num ≠ PushRet.raises) :
    Ev.pushed i num ∈ (runCallbacks num cbs buf st).evs
      ↔ ∃ cb ∈ cbs, cb.id = i ∧ num % cb.every = 0 := by
  rw [runCallbacks_evs_of_no_raise num cbs buf st hnr]
  simp only [List.mem_map, List.mem_filter]
  constructor
  · rintro ⟨cb, ⟨hmem, hmod⟩, heq⟩
    refine ⟨cb, hmem, ?_, by simpa using hmod⟩
    have h2 : cb.id = i := by simpa using heq
    exact h2
  · rintro ⟨cb, hmem, hid, hmod⟩
    exact ⟨cb, ⟨hmem, by simpa using hmod⟩, by simp [hid]⟩

/-- Witness for C2 at a concrete tick: frame number 2 dispatched to a
period-1 and a period-2 callback. -/
theorem push_invoked_iff_period_divides_witness :
    (∀ cb ∈ [pluginQuiet, cbEvery2], 1 ≤ cb.every)
    ∧ (∀ cb ∈ [pluginQuiet, cbEvery2], cb.react 2 ≠ PushRet.raises)
    ∧ (Ev.pushed 1 2 ∈ (runCallbacks 2 [pluginQuiet, cbEvery2] ⟨1, false⟩
          FrameState.empty).evs
        ↔ ∃ cb ∈ [pluginQuiet, cbEvery2], cb.id = 1 ∧ 2 % cb.every = 0) :=
  ⟨by decide, by decide,
   push_invoked_iff_period_divides 2 [pluginQuiet, cbEvery2] ⟨1, false⟩
     FrameState.empty 1 (by decide) (by decide)⟩

/-- Every event emitted by the per-tick dispatch is a push event carrying
this tick's frame number. -/
theorem runCallbacks_evs_shape (num : Nat) (cbs : List CB) (buf : Frame)
    (st : FrameState) :
    ∀ e ∈ (runCallbacks num cbs buf st).evs, ∃ j, e = Ev.pushed j num := by
  induction cbs generalizing buf st with
  | nil =>
    intro e he
    simp [runCallbacks] at he
  | cons cb rest ih =>
    intro e he
    by_cases hm : (num % cb.every == 0) = true
    · cases hr : cb.react num with
      | raises =>
        simp [runCallbacks, hm, hr] at he
        exact ⟨cb.id, he⟩
      | finishes =>
        simp [runCallbacks, hm, hr] at he
        rcases he with rfl | he2
        · exact ⟨cb.id, rfl⟩
        · exact ih _ _ _ he2
      | retNone =>
        simp [runCallbacks, hm, hr] at he
        rcases he with rfl | he2
        · exact ⟨cb.id, rfl⟩
        · exact ih _ _ _ he2
      | busy =>
        simp [runCallbacks, hm, hr] at he
        rcases he with rfl | he2
        · exact ⟨cb.id, rfl⟩
        · exact ih _ _ _ he2
      | imgState f d =>
        simp [runCallbacks, hm, hr] at he
        rcases he with rfl | he2
        · exact ⟨cb.id, rfl⟩
        · exact ih _ _ _ he2
      | stateOnly d =>
        simp [runCallbacks, hm, hr] at he
        rcases he with rfl | he2
        · exact ⟨cb.id, rfl⟩
        · exact ih _ _ _ he2
      | img f =>
        simp [runCallbacks, hm, hr] at he
        rcases he with rfl | he2
        · exact ⟨cb.id, rfl⟩
        · exact ih _ _ _ he2
      | other =>
        simp [runCallbacks, hm, hr] at he
        rcases he with rfl | he2
        · exact ⟨cb.id, rfl⟩
        · exact ih _ _ _ he2
    · simp [runCallbacks, hm] at he
      exact ih _ _ _ he

/-- Every event emitted by the post-tick removal loop is a stop event. -/
theorem detachFinished_evs_shape (fins : List Nat) (cbs plugs : List CB) :
    ∀ e ∈ (detachFinished fins cbs plugs).1, ∃ j, e = Ev.stopped j := by
  induction fins generalizing cbs plugs with
  | nil =>
    intro e he
    simp [detachFinished] at he
  | cons i rest ih =>
    intro e he
    by_cases hp : (plugs.any (fun p => p.id == i)) = true
    · simp [detachFinished, hp] at he
      rcases he with rfl | he2
      · exact ⟨i, rfl⟩
      · exact ih _ _ _ he2
    · simp [detachFinished, hp] at he
      exact ih _ _ _ he

/-- The seeded state of every tick binds `KEY` to `None`. -/
theorem initState_get_key (f : Frame) (meta : PyVal) :
    (initState f meta).get "KEY" = PyVal.pynone :=
  rfl

/-- Every event emitted by one tick is the tick's seed record (whose `KEY`
entry is `None`), a push event of this tick, a stop event, or this tick's
end-of-tick key observation. -/
theorem tickStep_evs_shape (ag cw : Bool) (s : Sched) (f : Frame) (num : Nat)
    (meta : PyVal) (key : Nat) :
    ∀ e ∈ (tickStep ag cw s f num meta key).evs,
      e = Ev.tick num PyVal.pynone ∨ (∃ j, e = Ev.pushed j num)
      ∨ (∃ j, e = Ev.stopped j) ∨ e = Ev.endKey num (key % 256) := by
  intro e he
  simp only [tickStep, initState_get_key] at he
  split at he
  · simp only [List.mem_cons] at he
    rcases he with rfl | he2
    · exact Or.inl rfl
    · exact Or.inr (Or.inl (runCallbacks_evs_shape _ _ _ _ _ he2))
  · split at he
    · simp at he
      rcases he with rfl | he2 | he3
      · exact Or.inl rfl
      · exact Or.inr (Or.inl (runCallbacks_evs_shape _ _ _ _ _ he2))
      · exact Or.inr (Or.inr (Or.inl (detachFinished_evs_shape _ _ _ _ he3)))
    · split at he
      · simp at he
        rcases he with rfl | he2 | he3 | ⟨hcw, rfl⟩
        · exact Or.inl rfl
        · exact Or.inr (Or.inl (runCallbacks_evs_shape _ _ _ _ _ he2))
        · exact Or.inr (Or.inr (Or.inl (detachFinished_evs_shape _ _ _ _ he3)))
        · exact Or.inr (Or.inr (Or.inr rfl))
      · simp at he
        rcases he with rfl | he2 | he3
        · exact Or.inl rfl
        · exact Or.inr (Or.inl (runCallbacks_evs_shape _ _ _ _ _ he2))
        · exact Or.inr (Or.inr (Or.inl (detachFinished_evs_shape _ _ _ _ he3)))

/-- The per-tick dispatch emits no stop events. -/
theorem runCallbacks_count_stopped (num : Nat) (cbs : List CB) (buf : Frame)
    (st : FrameState) (i : Nat) :
    (runCallbacks num cbs buf st).evs.count (Ev.stopped i) = 0 := by
  rw [List.count_eq_zero]
  intro hmem
  obtain ⟨j, hj⟩ := runCallbacks_evs_shape _ _ _ _ _ hmem
  exact absurd hj (by simp)

/-- The per-tick dispatch emits no start events. -/
theorem runCallbacks_count_started (num : Nat) (cbs : List CB) (buf : Frame)
    (st : FrameState) (i : Nat) :
    (runCallbacks num cbs buf st).evs.count (Ev.started i) = 0 := by
  rw [List.count_eq_zero]
  intro hmem
  obtain ⟨j, hj⟩ := runCallbacks_evs_shape _ _ _ _ _ hmem
  exact absurd hj (by simp)

/-- A callback list holds at least one callback with identity `i` whenever
`any` finds one. -/
theorem pcount_pos_of_any (l : List CB) (i : Nat)
    (h : l.any (fun p => p.id == i) = true) : 1 ≤ pcount l i := by
  obtain ⟨a, ha, hp⟩ := List.any_eq_true.mp h
  exact List.countP_pos_iff.mpr ⟨a, ha, hp⟩

/-- Erasing the first callback with identity `i` removes exactly one
occurrence. -/
theorem pcount_eraseP_self (l : List CB) (i : Nat)
    (h : l.any (fun p => p.id == i) = true) :
    pcount (l.eraseP (fun p => p.id == i)) i + 1 = pcount l i := by
  induction l with
  | nil => simp at h
  | cons x xs ih =>
    by_cases hx : (x.id == i) = true
    · simp [List.eraseP_cons, hx, pcount, List.countP_cons]
    · have hany : xs.any (fun p => p.id == i) = true := by
        simpa [List.any_cons, hx] using h
      have ih2 := ih hany
      simp only [pcount] at ih2
      simp [List.eraseP_cons, hx, pcount, List.countP_cons, ih2]

/-- Erasing the first callback with a different identity leaves the count
for `i` unchanged. -/
theorem pcount_eraseP_ne (l : List CB) (i j : Nat) (hne : i ≠ j) :
    pcount (l.eraseP (fun p => p.id == j)) i = pcount l i := by
  induction l with
  | nil => simp [pcount]
  | cons x xs ih =>
    by_cases hx : (x.id == j) = true
    · have hxj : x.id = j := by simpa using hx
      have hxi : (x.id == i) = false := by
        simp [hxj]
        exact fun hc => hne hc.symm
      simp [List.eraseP_cons, hx, pcount, List.countP_cons, hxi]
    · have ih2 := ih
      simp only [pcount] at ih2
      simp [List.eraseP_cons, hx, pcount, List.countP_cons, ih2]

/-- Erasing with a predicate that hits nothing is the identity. -/
theorem eraseP_no_hit (l : List CB) (i : Nat)
    (h : l.any (fun p => p.id == i) = false) :
    l.eraseP (fun p => p.id == i) = l := by
  apply List.eraseP_of_forall_not
  intro a ha
  have := List.any_eq_false.mp h a ha
  simpa using this

/-- The removal loop emits one stop event per plugin it removes: for any
identity held by at most one attached plugin, the stop events emitted plus
the occurrences still attached equal the occurrences attached before, and
the at-most-one bound is preserved. -/
theorem detachFinished_stopped_count (fins : List Nat) (cbs plugs : List CB)
    (i : Nat) (h : pcount plugs i ≤ 1) :
    ((detachFinished fins cbs plugs).1.count (Ev.stopped i)
        + pcount (detachFinished fins cbs plugs).2.2 i = pcount plugs i)
    ∧ pcount (detachFinished fins cbs plugs).2.2 i ≤ 1 := by
  induction fins generalizing cbs plugs with
  | nil =>
    constructor
    · simp [detachFinished]
    · simpa [detachFinished] using h
  | cons j rest ih =>
    by_cases hp : (plugs.any (fun p => p.id == j)) = true
    · by_cases hij : i = j
      · subst hij
        have h1 : pcount plugs i = 1 := le_antisymm h (pcount_pos_of_any _ _ hp)
        have h0 : pcount (plugs.eraseP (fun p => p.id == i)) i = 0 := by
          have h2 := pcount_eraseP_self plugs i hp
          omega
        obtain ⟨ih1, ih2⟩ := ih (cbs.eraseP (fun cb => cb.id == i))
          (plugs.eraseP (fun p => p.id == i)) (by omega)
        constructor
        · simp only [detachFinished, hp, if_true, List.count_cons]
          simp [h1]
          omega
        · simp only [detachFinished, hp, if_true]
          exact ih2
      · have hcount : pcount (plugs.eraseP (fun p => p.id == j)) i = pcount plugs i :=
          pcount_eraseP_ne plugs i j hij
        obtain ⟨ih1, ih2⟩ := ih (cbs.eraseP (fun cb => cb.id == j))
          (plugs.eraseP (fun p => p.id == j)) (by omega)
        have hji : j ≠ i := fun hc => hij hc.symm
        constructor
        · simp only [detachFinished, hp, if_true, List.count_cons]
          simp [hji]
          omega
        · simp only [detachFinished, hp, if_true]
          exact ih2
    · have hplugs : plugs.eraseP (fun p => p.id == j) = plugs := by
        apply List.eraseP_of_forall_not
        intro a ha
        have := List.any_eq_false.mp (Bool.of_not_eq_true hp) a ha
        simpa using this
      have ihr := ih (cbs.eraseP (fun cb => cb.id == j)) plugs h
      constructor
      · simpa [detachFinished, hp] using ihr.1
      · simpa [detachFinished, hp] using ihr.2

/-- One tick emits one stop event per plugin it detaches: for any identity
held by at most one attached plugin, stop events emitted this tick plus
occurrences still attached equal the occurrences attached before the tick,
and the bound is preserved.  This holds on the raising path as well, where
no detachment happens. -/
theorem tickStep_stopped_count (ag cw : Bool) (s : Sched) (f : Frame) (num : Nat)
    (meta : PyVal) (key : Nat) (i : Nat) (h : pcount s.plugins i ≤ 1) :
    ((tickStep ag cw s f num meta key).evs.count (Ev.stopped i)
        + pcount (tickStep ag cw s f num meta key).sched.plugins i
      = pcount s.plugins i)
    ∧ pcount (tickStep ag cw s f num meta key).sched.plugins i ≤ 1 := by
  obtain ⟨hd1, hd2⟩ := detachFinished_stopped_count
    (runCallbacks num s.callbacks (pickBuf ag (s.captureIsColor.getD f.color) f)
      (initState f meta)).fins s.callbacks s.plugins i h
  have hrc := runCallbacks_count_stopped num s.callbacks
    (pickBuf ag (s.captureIsColor.getD f.color) f) (initState f meta) i
  simp only [tickStep]
  split
  · constructor
    · simp [List.count_cons, hrc]
    · simpa using h
  · split
    · constructor
      · simp [List.count_cons, List.count_append, hrc]
        omega
      · simpa using hd2
    · split
      · constructor
        · by_cases hcw : cw = true <;>
            simp [List.count_cons, List.count_append, hrc, hcw] <;> omega
        · simpa using hd2
      · constructor
        · simp [List.count_cons, List.count_append, hrc]
          omega
        · simpa using hd2

/-- One tick emits no start events. -/
theorem tickStep_count_started (ag cw : Bool) (s : Sched) (f : Frame) (num : Nat)
    (meta : PyVal) (key : Nat) (i : Nat) :
    (tickStep ag cw s f num meta key).evs.count (Ev.started i) = 0 := by
  rw [List.count_eq_zero]
  intro hmem
  obtain h | ⟨j, hj⟩ | ⟨j, hj⟩ | h := tickStep_evs_shape ag cw s f num meta key _ hmem
  · simp at h
  · simp at hj
  · simp at hj
  · simp at h

/-- Across the whole main loop, the stop events emitted for an identity held
by at most one attached plugin plus the occurrences still attached at loop
exit equal the occurrences attached at loop entry — on every exit path. -/
theorem loopTicks_stopped_count (ag cw : Bool) (events : List CapEvent) :
    ∀ (s : Sched) (i : Nat), pcount s.plugins i ≤ 1 →
    ((loopTicks ag cw s events).evs.count (Ev.stopped i)
        + pcount (loopTicks ag cw s events).sched.plugins i = pcount s.plugins i)
    ∧ pcount (loopTicks ag cw s events).sched.plugins i ≤ 1 := by
  induction events with
  | nil =>
    intro s i h
    constructor
    · simp [loopTicks]
    · simpa [loopTicks] using h
  | cons e rest ih =>
    intro s i h
    by_cases hrun : (s.run = true)
    · cases e with
      | stopRequest =>
        have h2 := ih { s with run := false } i (by simpa using h)
        simpa [loopTicks, hrun] using h2
      | eof =>
        have h2 := ih { s with run := false } i (by simpa using h)
        simpa [loopTicks, hrun] using h2
      | noncritical =>
        have h2 := ih s i h
        simpa [loopTicks, hrun] using h2
      | nullFrame =>
        have h2 := ih s i h
        simpa [loopTicks, hrun] using h2
      | frame f num meta key =>
        obtain ⟨ht1, ht2⟩ := tickStep_stopped_count ag cw s f num meta key i h
        by_cases hc : ((tickStep ag cw s f num meta key).cont = true)
        · obtain ⟨ih1, ih2⟩ := ih (tickStep ag cw s f num meta key).sched i ht2
          constructor
          · simp only [loopTicks, hrun, if_true, hc, List.count_append]
            omega
          · simpa [loopTicks, hrun, hc] using ih2
        · constructor
          · simpa [loopTicks, hrun, hc] using ht1
          · simpa [loopTicks, hrun, hc] using ht2
    · constructor
      · simp [loopTicks, hrun]
      · simpa [loopTicks, hrun] using h

/-- The main loop emits no start events. -/
theorem loopTicks_count_started (ag cw : Bool) (events : List CapEvent) :
    ∀ (s : Sched) (i : Nat),
      (loopTicks ag cw s events).evs.count (Ev.started i) = 0 := by
  induction events with
  | nil =>
    intro s i
    simp [loopTicks]
  | cons e rest ih =>
    intro s i
    by_cases hrun : (s.run = true)
    · cases e with
      | stopRequest => simpa [loopTicks, hrun] using ih { s with run := false } i
      | eof => simpa [loopTicks, hrun] using ih { s with run := false } i
      | noncritical => simpa [loopTicks, hrun] using ih s i
      | nullFrame => simpa [loopTicks, hrun] using ih s i
      | frame f num meta key =>
        have hts := tickStep_count_started ag cw s f num meta key i
        by_cases hc : ((tickStep ag cw s f num meta key).cont = true)
        · simp [loopTicks, hrun, hc, List.count_append, hts, ih _ i]
        · simp [loopTicks, hrun, hc, hts]
    · simp [loopTicks, hrun]

/-- The start events emitted for the plugin map carry one event per plugin
occurrence. -/
theorem count_started_map (l : List CB) (i : Nat) :
    (l.map (fun p => Ev.started p.id)).count (Ev.started i) = pcount l i := by
  induction l with
  | nil => simp [pcount]
  | cons x xs ih =>
    by_cases hx : x.id = i <;>
      simp [List.count_cons, pcount, List.countP_cons, hx] <;>
      simpa [pcount] using ih

/-- The cleanup stop events carry one event per plugin occurrence. -/
theorem count_stopped_map (l : List CB) (i : Nat) :
    (l.map (fun p => Ev.stopped p.id)).count (Ev.stopped i) = pcount l i := by
  induction l with
  | nil => simp [pcount]
  | cons x xs ih =>
    by_cases hx : x.id = i <;>
      simp [List.count_cons, pcount, List.countP_cons, hx] <;>
      simpa [pcount] using ih

/-- Start-event maps contain no stop events. -/
theorem count_stopped_in_started_map (l : List CB) (i : Nat) :
    (l.map (fun p => Ev.started p.id)).count (Ev.stopped i) = 0 := by
  rw [List.count_eq_zero]
  intro hmem
  simp at hmem

/-- Stop-event maps contain no start events. -/
theorem count_started_in_stopped_map (l : List CB) (i : Nat) :
    (l.map (fun p => Ev.stopped p.id)).count (Ev.started i) = 0 := by
  rw [List.count_eq_zero]
  intro hmem
  simp at hmem

/-- C1: for every plugin whose `start()` was called by the scheduler's
`run()` (a member of the plugin map at run start, with identities unique),
`stop()` is called exactly once by the time `run()` exits, on every exit
path — end-of-stream, external stop, input exhaustion, self-stop on an
empty callback list, or an exception escaping an inline plugin: a plugin
that signals completion mid-run is stopped once at detach time and excluded
from the final cleanup, and every still-attached plugin is stopped once by
the cleanup that runs unconditionally on loop exit. -/
theorem run_stops_each_started_plugin_once (s0 : Sched) (events : List CapEvent)
    (i : Nat) (h : pcount s0.plugins i = 1) :
    ((Microfview.run s0 events).evs.count (Ev.started i) = 1)
    ∧ ((Microfview.run s0 events).evs.count (Ev.stopped i) = 1) := by
  obtain ⟨hl1, hl2⟩ := loopTicks_stopped_count
    (!(s0.plugins.any (fun p => p.usesColor))) (s0.plugins.any (fun p => p.showsWindows))
    events { s0 with run := true } i (by simpa using Nat.le_of_eq h)
  have hst := loopTicks_count_started
    (!(s0.plugins.any (fun p => p.usesColor))) (s0.plugins.any (fun p => p.showsWindows))
    events { s0 with run := true } i
  simp only at hl1
  constructor
  · simp [Microfview.run, List.count_append, count_started_map, hst,
      count_started_in_stopped_map, h]
  · simp [Microfview.run, List.count_append, count_stopped_in_started_map,
      count_stopped_map]
    omega

/-- Witness for C1: a single attached plugin over a source that immediately
signals end-of-stream. -/
theorem run_stops_each_started_plugin_once_witness :
    pcount (mkSched [pluginQuiet] [pluginQuiet]).plugins 0 = 1
    ∧ ((Microfview.run (mkSched [pluginQuiet] [pluginQuiet]) [CapEvent.eof]).evs.count
        (Ev.started 0) = 1) :=
  ⟨by decide,
   (run_stops_each_started_plugin_once (mkSched [pluginQuiet] [pluginQuiet])
      [CapEvent.eof] 0 (by decide)).1⟩

/-- Every tick event emitted by the main loop records a seeded `KEY` of
`None`. -/
theorem loopTicks_tick_seed (ag cw : Bool) (events : List CapEvent) :
    ∀ (s : Sched) (n : Nat) (k : PyVal),
      Ev.tick n k ∈ (loopTicks ag cw s events).evs → k = PyVal.pynone := by
  induction events with
  | nil =>
    intro s n k hm
    simp [loopTicks] at hm
  | cons e rest ih =>
    intro s n k hm
    by_cases hrun : (s.run = true)
    · cases e with
      | stopRequest => exact ih _ _ _ (by simpa [loopTicks, hrun] using hm)
      | eof => exact ih _ _ _ (by simpa [loopTicks, hrun] using hm)
      | noncritical => exact ih _ _ _ (by simpa [loopTicks, hrun] using hm)
      | nullFrame => exact ih _ _ _ (by simpa [loopTicks, hrun] using hm)
      | frame f num meta key =>
        by_cases hc : ((tickStep ag cw s f num meta key).cont = true)
        · simp only [loopTicks, hrun, if_true, hc, List.mem_append] at hm
          rcases hm with hm1 | hm2
          · obtain h | ⟨j, hj⟩ | ⟨j, hj⟩ | h :=
              tickStep_evs_shape ag cw s f num meta key _ hm1
            · injection h with h1 h2
            · simp at hj
            · simp at hj
            · simp at h
          · exact ih _ _ _ hm2
        · simp only [loopTicks, hrun, if_true] at hm
          rw [if_neg hc] at hm
          obtain h | ⟨j, hj⟩ | ⟨j, hj⟩ | h :=
            tickStep_evs_shape ag cw s f num meta key _ hm
          · injection h with h1 h2
          · simp at hj
          · simp at hj
          · simp at h
    · simp [loopTicks, hrun] at hm

/-- C8 counterexample: with a window-showing plugin, the key 27 observed
during tick 1 is recorded into tick 1's own (already dispatched) state, and
the fresh state of tick 2 still seeds `KEY` with `None`, not with 27 — the
control input does not persist into the next tick. -/
theorem key_not_carried_cex :
    Ev.endKey 1 27 ∈ (Microfview.run (mkSched [pluginDisplay] [pluginDisplay])
      [CapEvent.frame ⟨1, false⟩ 1 PyVal.pynone 27,
       CapEvent.frame ⟨2, false⟩ 2 PyVal.pynone 13, CapEvent.eof]).evs
    ∧ Ev.tick 2 PyVal.pynone ∈ (Microfview.run (mkSched [pluginDisplay] [pluginDisplay])
      [CapEvent.frame ⟨1, false⟩ 1 PyVal.pynone 27,
       CapEvent.frame ⟨2, false⟩ 2 PyVal.pynone 13, CapEvent.eof]).evs
    ∧ Ev.tick 2 (PyVal.atom (PyAtom.pyint 27)) ∉
        (Microfview.run (mkSched [pluginDisplay] [pluginDisplay])
      [CapEvent.frame ⟨1, false⟩ 1 PyVal.pynone 27,
       CapEvent.frame ⟨2, false⟩ 2 PyVal.pynone 13, CapEvent.eof]).evs := by
  refine ⟨?_, ?_, ?_⟩ <;> decide

/-- C8 amended: the fresh FrameState built at every tick start has its
control-input entry `KEY` seeded to `None`; the key observed via `waitKey`
during a tick is written into that same tick's already-dispatched state and
is not carried into any later tick's seed. -/
theorem tick_seed_key_none (s0 : Sched) (events : List CapEvent) (n : Nat)
    (k : PyVal) (h : Ev.tick n k ∈ (Microfview.run s0 events).evs) :
    k = PyVal.pynone := by
  simp only [Microfview.run, List.mem_append] at h
  rcases h with (h1 | h2) | h3
  · simp at h1
  · exact loopTicks_tick_seed _ _ events _ n k h2
  · simp at h3

/-- Witness for the amended C8: the tick event of a concrete one-frame
run. -/
theorem tick_seed_key_none_witness :
    Ev.tick 1 PyVal.pynone ∈ (Microfview.run (mkSched [pluginQuiet] [pluginQuiet])
      [CapEvent.frame ⟨1, false⟩ 1 PyVal.pynone 0, CapEvent.eof]).evs
    ∧ PyVal.pynone = PyVal.pynone :=
  ⟨by decide,
   tick_seed_key_none (mkSched [pluginQuiet] [pluginQuiet])
     [CapEvent.frame ⟨1, false⟩ 1 PyVal.pynone 0, CapEvent.eof] 1 PyVal.pynone
     (by decide)⟩

/-- A tick dispatched to the single never-finishing period-1 callback emits
one tick record and one push, detaches nothing, and continues the loop. -/
theorem tickStep_immortal (s : Sched) (start : Nat) (hrun : s.run = true)
    (hcb : s.callbacks = [cbImmortal]) :
    tickStep true false s ⟨start, false⟩ start PyVal.pynone 0
      = ⟨[Ev.tick start PyVal.pynone, Ev.pushed 0 start],
         { s with captureIsColor := some (s.captureIsColor.getD false),
                  frameNumberCurrent := start, frameCount := s.frameCount + 1 },
         false, true⟩ := by
  simp [tickStep, hcb, runCallbacks, cbImmortal, detachFinished, pickBuf,
    initState_get_key, hrun, Nat.mod_one]

/-- Cleanup stop-event maps contain no tick events. -/
theorem countTicks_stopped_map (l : List CB) :
    countTicks (l.map (fun p => Ev.stopped p.id)) = 0 := by
  rw [countTicks, List.countP_eq_zero]
  intro e he
  simp only [List.mem_map] at he
  obtain ⟨p, hp, rfl⟩ := he
  simp

/-- Start-event maps contain no tick events. -/
theorem countTicks_started_map (l : List CB) :
    countTicks (l.map (fun p => Ev.started p.id)) = 0 := by
  rw [countTicks, List.countP_eq_zero]
  intro e he
  simp only [List.mem_map] at he
  obtain ⟨p, hp, rfl⟩ := he
  simp

/-- With a single never-finishing period-1 callback attached, the main loop
dispatches every delivered frame: it never stops itself, however many
frames arrive. -/
theorem loopTicks_immortal (k : Nat) :
    ∀ (start : Nat) (s : Sched), s.run = true → s.callbacks = [cbImmortal] →
      countTicks (loopTicks true false s (mkFrames start k)).evs = k := by
  induction k with
  | zero =>
    intro start s hrun hcb
    simp [mkFrames, loopTicks, countTicks]
  | succ k ih =>
    intro start s hrun hcb
    have hts := tickStep_immortal s start hrun hcb
    have ihr := ih (start + 1)
      { s with captureIsColor := some (s.captureIsColor.getD false),
               frameNumberCurrent := start, frameCount := s.frameCount + 1 }
      (by simpa using hrun) (by simpa using hcb)
    simp [mkFrames, loopTicks, hrun, hts, countTicks, List.countP_append,
      List.countP_cons] at ihr ⊢
    omega

/-- Tick counts add over concatenated traces. -/
theorem countTicks_append (l1 l2 : List Ev) :
    countTicks (l1 ++ l2) = countTicks l1 + countTicks l2 := by
  simp [countTicks, List.countP_append]

/-- The empty trace has no ticks. -/
theorem countTicks_nil : countTicks [] = 0 := rfl

/-- C9 (code evaluation for the code_bug): `Microfview` accepts no
stop-after-N-frames bound and its loop contains no frame-bound check — with
a single never-finishing callback attached, a run over any number of frames
dispatches every one of them, stopping only when the input is exhausted;
conversely the empty-callback-list self-stop is implemented: with a
callback that signals completion on its first tick, a 5-frame run
dispatches exactly one tick. -/
theorem no_stop_frame_bound :
    (∀ n, countTicks (Microfview.run (mkSched [cbImmortal] []) (mkFrames 1 n)).evs = n)
    ∧ countTicks (Microfview.run (mkSched [cbFinishing] []) (mkFrames 1 5)).evs = 1 := by
  constructor
  · intro n
    have hl := loopTicks_immortal n 1 { mkSched [cbImmortal] [] with run := true }
      rfl rfl
    simp only [Microfview.run, countTicks_append, countTicks_started_map,
      countTicks_stopped_map, countTicks_nil, mkSched, List.any_nil,
      Bool.not_false, List.map_nil] at hl ⊢
    omega
  · decide
